import Mathlib

/-!
# Verification of the Solana instruction-shape decoder

Shallow embedding of `templates/pumpfun-tokens/abi-support.ts`: hex
discriminator parsing (`decodeHex`), the lazily compiled discriminator
assertion, account slot resolution (`decodeAccounts`), payload decoding
(`decodeData`) and the combined `decode` entry point of the `Instruction`
class.  The mutable `_assertDiscriminator` memo field of the class is made
explicit: every method that may touch it returns the updated instance next
to its result.  Bytes are natural numbers below 256 in lists.
-/

/-- Errors a decode can surface.  `assertionFailed` models a failed bare
`assert(boolean)` call from node (which carries no operand values);
`outOfBounds` models a `RangeError` thrown by a fixed-width read past the
end of a buffer or by a fractional typed-array length; `codecFailure`
stands for an arbitrary error thrown by the injected structured codec. -/
inductive DecodeError where
  | assertionFailed
  | outOfBounds
  | codecFailure
  deriving DecidableEq

/-- A byte buffer (`Uint8Array`), one entry per byte. -/
abbrev Bytes := List Nat

/-- Little-endian value of a byte list, the way `@subsquid/borsh`'s `Src`
reads fixed-width unsigned integers from a `Uint8Array`. -/
def leVal : Bytes → Nat
  | [] => 0
  | b :: rest => b + 256 * leVal rest

/-- The fixed-width unsigned reads `Src.u8` / `Src.u32` / `Src.u64` of
`@subsquid/borsh` (an external capability): consume the `w` leading bytes,
little-endian; reading past the end of the buffer throws. -/
def srcReadUInt (w : Nat) (s : Bytes) : Except DecodeError (Nat × Bytes) :=
  if w ≤ s.length then Except.ok (leVal (s.take w), s.drop w)
  else Except.error DecodeError.outOfBounds

/-- Value of one hexadecimal digit character, `none` for a non-digit. -/
def hexDigitVal (c : Char) : Option Nat :=
  if 48 ≤ c.toNat ∧ c.toNat ≤ 57 then some (c.toNat - 48)
  else if 97 ≤ c.toNat ∧ c.toNat ≤ 102 then some (c.toNat - 87)
  else if 65 ≤ c.toNat ∧ c.toNat ≤ 70 then some (c.toNat - 55)
  else none

/-- `parseInt(pair, 16)` on the two-character slices taken by `decodeHex`:
the longest hex-digit prefix is parsed, `none` (`NaN`) when the first
character is not a digit.  (`parseInt`'s sign and whitespace handling is
irrelevant for two-character slices of the hex constants used here.) -/
def parseHexPair (c1 c2 : Char) : Option Nat :=
  match hexDigitVal c1, hexDigitVal c2 with
  | some h, some l => some (16 * h + l)
  | some h, none => some h
  | none, _ => none

/-- The store loop of `decodeHex`: each two-character slice is parsed with
`parseInt(_, 16)` and stored into the `Uint8Array` (`NaN` stores 0, values
are truncated mod 256 by the typed-array store). -/
def hexPairsToBytes : List Char → Bytes
  | c1 :: c2 :: rest => (parseHexPair c1 c2).getD 0 % 256 :: hexPairsToBytes rest
  | _ => []

/-- `hex.startsWith('0x') ? hex.slice(2) : hex`. -/
def stripHexPrefix : List Char → List Char
  | '0' :: 'x' :: rest => rest
  | cs => cs

/-- `decodeHex` from the source: strip an optional `0x` prefix, allocate a
`Uint8Array` of half the length (a fractional length — odd number of hex
characters — throws a `RangeError`, modelled as `none`) and fill it from
the two-character slices. -/
def decodeHex (hex : String) : Option Bytes :=
  let cs := stripHexPrefix hex.toList
  if cs.length % 2 = 0 then some (hexPairsToBytes cs) else none

/-- What `createDiscriminatorAssertion` compiles: either a specialized
closure comparing the `w`-byte unsigned read of the payload front against
the pre-decoded constant `d`, or the always-pass closure used when no
discriminator field is declared. -/
inductive CompiledCheck where
  | tagged (w : Nat) (d : Nat)
  | always
  deriving DecidableEq

/-- `createDiscriminatorAssertion` from the source: pick the widest
declared field (`d8`, else `d4`, else `d1`), decode its hex constant once,
read it as the matching fixed-width unsigned integer, and return the
specialized check; with no field declared return the always-pass check.
Errors thrown while decoding the constant propagate to the caller. -/
def compileCheck (d8 d4 d1 : Option String) : Except DecodeError CompiledCheck :=
  match d8 with
  | some h =>
    match decodeHex h with
    | none => Except.error DecodeError.outOfBounds
    | some bs =>
      match srcReadUInt 8 bs with
      | Except.error e => Except.error e
      | Except.ok (d, _) => Except.ok (CompiledCheck.tagged 8 d)
  | none =>
    match d4 with
    | some h =>
      match decodeHex h with
      | none => Except.error DecodeError.outOfBounds
      | some bs =>
        match srcReadUInt 4 bs with
        | Except.error e => Except.error e
        | Except.ok (d, _) => Except.ok (CompiledCheck.tagged 4 d)
    | none =>
      match d1 with
      | some h =>
        match decodeHex h with
        | none => Except.error DecodeError.outOfBounds
        | some bs =>
          match srcReadUInt 1 bs with
          | Except.error e => Except.error e
          | Except.ok (d, _) => Except.ok (CompiledCheck.tagged 1 d)
      | none => Except.ok CompiledCheck.always

/-- Run a compiled discriminator check against a payload: read the
same-width unsigned integer from the front (consuming those bytes) and
`assert` equality with the pre-decoded constant; the always-pass check
consumes nothing and never fails. -/
def applyCheck : CompiledCheck → Bytes → Except DecodeError Bytes
  | CompiledCheck.tagged w d, s =>
    match srcReadUInt w s with
    | Except.error e => Except.error e
    | Except.ok (a, rest) =>
      if d = a then Except.ok rest else Except.error DecodeError.assertionFailed
  | CompiledCheck.always, s => Except.ok s

/-- A structured data codec (`Codec<D>` of `@subsquid/borsh`, an external
capability): decodes a value from the front of a buffer, returning it with
the remaining bytes, or fails. -/
def Codec (D : Type) := Bytes → Except DecodeError (D × Bytes)

/-- The `Instruction` class.  The three discriminator fields are merged
onto the instance by `Object.assign` inside `instruction`; `accounts` is
the slot map, kept as an association list in declaration order (JS
`for..in` enumerates the identifier keys used for role names in insertion
order); `data` is the injected codec; `cachedAssert` is the lazily
populated `_assertDiscriminator` memo field. -/
structure Instruction (D : Type) where
  d8 : Option String
  d4 : Option String
  d1 : Option String
  accounts : List (String × Nat)
  data : Codec D
  cachedAssert : Option CompiledCheck

/-- `instruction(d, accounts, data)`: build an `Instruction` with the
discriminator fields copied on and an empty check cache. -/
def instruction {D : Type} (d8 d4 d1 : Option String)
    (accounts : List (String × Nat)) (data : Codec D) : Instruction D :=
  ⟨d8, d4, d1, accounts, data, none⟩

/-- `assertDiscriminator`: on first use compile the check and store it in
the memo field (the store completes before the check runs, so the field is
populated even when the check itself then fails); afterwards reuse the
cached closure.  Compilation errors leave the field unset. -/
def Instruction.assertDiscriminator {D : Type} (ins : Instruction D) (s : Bytes) :
    Except DecodeError Bytes × Instruction D :=
  match ins.cachedAssert with
  | some c => (applyCheck c s, ins)
  | none =>
    match compileCheck ins.d8 ins.d4 ins.d1 with
    | Except.error e => (Except.error e, ins)
    | Except.ok c => (applyCheck c s, { ins with cachedAssert := some c })

/-- `decodeData`: validate the discriminator (consuming its bytes), then
hand the remaining bytes to the data codec; the codec's unconsumed tail is
discarded. -/
def Instruction.decodeData {D : Type} (ins : Instruction D) (bytes : Bytes) :
    Except DecodeError D × Instruction D :=
  match ins.assertDiscriminator bytes with
  | (Except.error e, ins1) => (Except.error e, ins1)
  | (Except.ok rest, ins1) =>
    match ins1.data rest with
    | Except.error e => (Except.error e, ins1)
    | Except.ok (v, _) => (Except.ok v, ins1)

/-- The loop of `decodeAccounts`:
`result[key] = accounts[this.accounts[key]]` for each declared role in
declaration order; an out-of-range index reads `undefined` (`none`). -/
def decodeAccountsList : List (String × Nat) → List String → List (String × Option String)
  | [], _ => []
  | (k, i) :: rest, addrs => (k, addrs.get? i) :: decodeAccountsList rest addrs

/-- `decodeAccounts`: project the flat address list onto the declared
role names. -/
def Instruction.decodeAccounts {D : Type} (ins : Instruction D)
    (addrs : List String) : List (String × Option String) :=
  decodeAccountsList ins.accounts addrs

/-- Raw instruction input: the ordered account address list plus the
payload bytes. -/
structure RawInstruction where
  accounts : List String
  data : Bytes

/-- Modelled from the spec: `getInstructionData` of
`@subsquid/solana-stream` (the out-of-scope upstream source) yields the
raw instruction's payload bytes. -/
def getInstructionData (ins : RawInstruction) : Bytes := ins.data

/-- Decoded instruction output: role-to-address bindings plus the typed
value produced by the data codec. -/
structure DecodedInstruction (D : Type) where
  accounts : List (String × Option String)
  data : D
  deriving DecidableEq

/-- `decode`: resolve accounts (evaluated first in the object literal,
never fails) and decode the payload; a data-path error aborts the whole
decode. -/
def Instruction.decode {D : Type} (ins : Instruction D) (raw : RawInstruction) :
    Except DecodeError (DecodedInstruction D) × Instruction D :=
  let accs := ins.decodeAccounts raw.accounts
  match ins.decodeData (getInstructionData raw) with
  | (Except.error e, ins1) => (Except.error e, ins1)
  | (Except.ok v, ins1) => (Except.ok ⟨accs, v⟩, ins1)

/-- Which single discriminator field of width `w` an instruction declares
(the zero-or-one invariant of the data model, one constant `hex`). -/
def discSpec {D : Type} (ins : Instruction D) (w : Nat) (hex : String) : Prop :=
  (w = 8 ∧ ins.d8 = some hex) ∨
  (w = 4 ∧ ins.d8 = none ∧ ins.d4 = some hex) ∨
  (w = 1 ∧ ins.d8 = none ∧ ins.d4 = none ∧ ins.d1 = some hex)

/-- Borsh length-prefixed byte string: a `u32` length then that many raw
bytes (string contents kept as bytes). -/
def readBorshBytes (s : Bytes) : Except DecodeError (Bytes × Bytes) :=
  match srcReadUInt 4 s with
  | Except.error e => Except.error e
  | Except.ok (n, rest) =>
    if n ≤ rest.length then Except.ok (rest.take n, rest.drop n)
    else Except.error DecodeError.outOfBounds

/-- The concrete `{name, symbol, uri}` data layout of the pumpfun create
instruction: three borsh length-prefixed strings. -/
def tripleStringCodec : Codec (Bytes × Bytes × Bytes) := fun s =>
  match readBorshBytes s with
  | Except.error e => Except.error e
  | Except.ok (a, s1) =>
    match readBorshBytes s1 with
    | Except.error e => Except.error e
    | Except.ok (b, s2) =>
      match readBorshBytes s2 with
      | Except.error e => Except.error e
      | Except.ok (c, s3) => Except.ok ((a, b, c), s3)

/-- The concrete create-instruction definition of the golden scenario:
8-byte discriminator `0x181ec828051c0777`, slot map `{mint: 0, user: 7}`,
triple-string data layout. -/
def createIns : Instruction (Bytes × Bytes × Bytes) :=
  instruction (some "0x181ec828051c0777") none none
    [("mint", 0), ("user", 7)] tripleStringCodec

/-- Payload body after the tag: the borsh strings `"Foo"`, `"FOO"`,
`"https://x"`. -/
def createBody : Bytes :=
  [3, 0, 0, 0, 70, 111, 111,
   3, 0, 0, 0, 70, 79, 79,
   9, 0, 0, 0, 104, 116, 116, 112, 115, 58, 47, 47, 120]

/-- Well-formed payload: the declared tag bytes followed by the body. -/
def createPayload : Bytes := [24, 30, 200, 40, 5, 28, 7, 119] ++ createBody

/-- Payload whose tag differs from the constant in its first byte. -/
def mismatchPayloadA : Bytes := [25, 30, 200, 40, 5, 28, 7, 119] ++ createBody

/-- Payload whose tag is all zero. -/
def mismatchPayloadB : Bytes := [0, 0, 0, 0, 0, 0, 0, 0] ++ createBody

/-- The same definition with a different declared constant. -/
def otherIns : Instruction (Bytes × Bytes × Bytes) :=
  { createIns with d8 := some "ffffffffffffffff" }

/-- Raw instruction of the golden scenario: fourteen accounts. -/
def rawGood : RawInstruction :=
  ⟨["A0", "A1", "A2", "A3", "A4", "A5", "A6", "A7", "A8", "A9", "A10",
    "A11", "A12", "A13"], createPayload⟩

/-- Raw instruction with only five accounts (fewer than index 7). -/
def rawShort : RawInstruction := ⟨["A0", "A1", "A2", "A3", "A4"], createPayload⟩

/-- A definition with no discriminator field declared. -/
def noDiscIns : Instruction (Bytes × Bytes × Bytes) :=
  instruction none none none [("x", 0)] tripleStringCodec

/-! ## Helper lemmas -/

theorem leVal_inj : ∀ {l1 l2 : Bytes}, l1.length = l2.length →
    (∀ b ∈ l1, b < 256) → (∀ b ∈ l2, b < 256) → leVal l1 = leVal l2 → l1 = l2
  | [], [], _, _, _, _ => rfl
  | a :: t1, b :: t2, hlen, h1, h2, hv => by
    have ha : a < 256 := h1 a (List.mem_cons_self a t1)
    have hb : b < 256 := h2 b (List.mem_cons_self b t2)
    have hv' : a + 256 * leVal t1 = b + 256 * leVal t2 := hv
    have hab : a = b := by omega
    have ht : leVal t1 = leVal t2 := by omega
    have hlen' : t1.length = t2.length := by simpa using hlen
    have := leVal_inj hlen'
      (fun x hx => h1 x (List.mem_cons_of_mem a hx))
      (fun x hx => h2 x (List.mem_cons_of_mem b hx)) ht
    rw [hab, this]

theorem hexPairsToBytes_lt : ∀ (cs : List Char), ∀ b ∈ hexPairsToBytes cs, b < 256
  | [] => by simp [hexPairsToBytes]
  | [c] => by simp [hexPairsToBytes]
  | c1 :: c2 :: rest => by
    intro b hb
    simp only [hexPairsToBytes, List.mem_cons] at hb
    rcases hb with h | h
    · subst h
      exact Nat.mod_lt _ (by omega)
    · exact hexPairsToBytes_lt rest b h

theorem decodeHex_lt {hex : String} {db : Bytes} (h : decodeHex hex = some db) :
    ∀ b ∈ db, b < 256 := by
  simp only [decodeHex] at h
  split at h
  · cases h
    exact hexPairsToBytes_lt _
  · cases h

theorem compileCheck_of_discSpec {D : Type} {ins : Instruction D} {w : Nat}
    {hex : String} {db : Bytes} (hspec : discSpec ins w hex)
    (hdh : decodeHex hex = some db) (hlen : db.length = w) :
    compileCheck ins.d8 ins.d4 ins.d1 = Except.ok (CompiledCheck.tagged w (leVal db)) := by
  have htake : db.take w = db := by rw [← hlen]; exact List.take_length db
  rcases hspec with ⟨hw, h8⟩ | ⟨hw, h8, h4⟩ | ⟨hw, h8, h4, h1⟩ <;> subst hw
  · simp [compileCheck, h8, hdh, srcReadUInt, hlen, htake]
  · simp [compileCheck, h8, h4, hdh, srcReadUInt, hlen, htake]
  · simp [compileCheck, h8, h4, h1, hdh, srcReadUInt, hlen, htake]

theorem applyCheck_tagged {w : Nat} {db payload : Bytes}
    (hlen : db.length = w) (hp : w ≤ payload.length)
    (h1 : ∀ b ∈ db, b < 256) (h2 : ∀ b ∈ payload, b < 256) :
    applyCheck (CompiledCheck.tagged w (leVal db)) payload =
      if payload.take w = db then Except.ok (payload.drop w)
      else Except.error DecodeError.assertionFailed := by
  have hread : srcReadUInt w payload = Except.ok (leVal (payload.take w), payload.drop w) := by
    simp [srcReadUInt, hp]
  by_cases hc : payload.take w = db
  · simp [applyCheck, hread, hc]
  · have hne : leVal db ≠ leVal (payload.take w) := by
      intro hv
      exact hc (leVal_inj (by rw [List.length_take, hlen]; omega)
        (fun b hb => h2 b (List.mem_of_mem_take hb)) h1 hv.symm)
    simp [applyCheck, hread, hc, hne]

theorem decodeAccountsList_eq_map : ∀ (slots : List (String × Nat)) (addrs : List String),
    decodeAccountsList slots addrs = slots.map (fun p => (p.1, addrs.get? p.2))
  | [], _ => rfl
  | (k, i) :: rest, addrs => by
    simp [decodeAccountsList, decodeAccountsList_eq_map rest addrs]

theorem assertDiscriminator_cached {D : Type} {ins : Instruction D} {c : CompiledCheck}
    (h : ins.cachedAssert = some c) (s : Bytes) :
    ins.assertDiscriminator s = (applyCheck c s, ins) := by
  simp [Instruction.assertDiscriminator, h]

theorem assertDiscriminator_fresh_ok {D : Type} {ins : Instruction D} {c : CompiledCheck}
    (h : ins.cachedAssert = none) (hc : compileCheck ins.d8 ins.d4 ins.d1 = Except.ok c)
    (s : Bytes) :
    ins.assertDiscriminator s = (applyCheck c s, { ins with cachedAssert := some c }) := by
  simp [Instruction.assertDiscriminator, h, hc]

theorem assertDiscriminator_fresh_err {D : Type} {ins : Instruction D} {e : DecodeError}
    (h : ins.cachedAssert = none) (hc : compileCheck ins.d8 ins.d4 ins.d1 = Except.error e)
    (s : Bytes) :
    ins.assertDiscriminator s = (Except.error e, ins) := by
  simp [Instruction.assertDiscriminator, h, hc]

/-- The pure result of validating with check `c` and then decoding with
`codec` (what one `decodeData` call computes, cache bookkeeping aside). -/
def runCheckData {D : Type} (c : CompiledCheck) (codec : Codec D)
    (bytes : Bytes) : Except DecodeError D :=
  match applyCheck c bytes with
  | Except.error e => Except.error e
  | Except.ok rest =>
    match codec rest with
    | Except.error e => Except.error e
    | Except.ok (v, _) => Except.ok v

theorem decodeData_cached {D : Type} {ins : Instruction D} {c : CompiledCheck}
    (h : ins.cachedAssert = some c) (bytes : Bytes) :
    ins.decodeData bytes = (runCheckData c ins.data bytes, ins) := by
  simp only [Instruction.decodeData, assertDiscriminator_cached h, runCheckData]
  cases applyCheck c bytes with
  | error e => rfl
  | ok rest =>
    cases hcodec : ins.data rest with
    | error e => simp [hcodec]
    | ok p => cases p; simp [hcodec]

theorem decodeData_fresh_ok {D : Type} {ins : Instruction D} {c : CompiledCheck}
    (h : ins.cachedAssert = none) (hc : compileCheck ins.d8 ins.d4 ins.d1 = Except.ok c)
    (bytes : Bytes) :
    ins.decodeData bytes =
      (runCheckData c ins.data bytes, { ins with cachedAssert := some c }) := by
  simp only [Instruction.decodeData, assertDiscriminator_fresh_ok h hc, runCheckData]
  cases applyCheck c bytes with
  | error e => rfl
  | ok rest =>
    cases hcodec : ins.data rest with
    | error e => simp [hcodec]
    | ok p => cases p; simp [hcodec]

theorem decodeData_fresh_err {D : Type} {ins : Instruction D} {e : DecodeError}
    (h : ins.cachedAssert = none) (hc : compileCheck ins.d8 ins.d4 ins.d1 = Except.error e)
    (bytes : Bytes) :
    ins.decodeData bytes = (Except.error e, ins) := by
  simp [Instruction.decodeData, assertDiscriminator_fresh_err h hc]

theorem decode_fst {D : Type} (ins : Instruction D) (raw : RawInstruction) :
    (ins.decode raw).1 =
      ((ins.decodeData raw.data).1).map
        (fun v => DecodedInstruction.mk (ins.decodeAccounts raw.accounts) v) := by
  simp only [Instruction.decode, getInstructionData]
  cases h : ins.decodeData raw.data with
  | mk r ins1 =>
    cases r with
    | error e => simp [Except.map]
    | ok v => simp [Except.map]

theorem decode_snd {D : Type} (ins : Instruction D) (raw : RawInstruction) :
    (ins.decode raw).2 = (ins.decodeData raw.data).2 := by
  simp only [Instruction.decode, getInstructionData]
  cases h : ins.decodeData raw.data with
  | mk r ins1 =>
    cases r with
    | error e => simp
    | ok v => simp

/-! ## Claim theorems -/

/-- Claim C1: with a declared discriminator whose constant matches the
payload's leading bytes and a payload body the data layout accepts,
`decode` succeeds; its `data` field is exactly what the data codec alone
produces on the bytes after the discriminator, and its `accounts` field
binds every slot-map role name to the address at its declared index in
the raw instruction's account list. -/
theorem decode_ok_of_discriminator_match {D : Type} (ins : Instruction D)
    (w : Nat) (hex : String) (db : Bytes) (raw : RawInstruction) (v : D)
    (rest : Bytes) (hspec : discSpec ins w hex)
    (hdh : decodeHex hex = some db) (hlen : db.length = w)
    (hmatch : raw.data.take w = db) (hp : w ≤ raw.data.length)
    (hcodec : ins.data (raw.data.drop w) = Except.ok (v, rest))
    (hcache : ins.cachedAssert = none)
    (hrange : ∀ p ∈ ins.accounts, p.2 < raw.accounts.length) :
    (ins.decode raw).1 =
      Except.ok ⟨ins.accounts.map (fun p => (p.1, raw.accounts.get? p.2)), v⟩ ∧
    ∀ p ∈ ins.accounts, (raw.accounts.get? p.2).isSome := by
  have hcompile := compileCheck_of_discSpec hspec hdh hlen
  have happly : applyCheck (CompiledCheck.tagged w (leVal db)) raw.data =
      Except.ok (raw.data.drop w) := by
    simp [applyCheck, srcReadUInt, hp, hmatch]
  constructor
  · rw [decode_fst, decodeData_fresh_ok hcache hcompile]
    simp [runCheckData, happly, hcodec, Instruction.decodeAccounts,
      decodeAccountsList_eq_map, Except.map]
  · intro p hmem
    rw [List.get?_eq_get (hrange p hmem)]
    rfl

/-- Claim C1 witness: the golden scenario — tag `0x181ec828051c0777`,
slot map `{mint: 0, user: 7}`, fourteen accounts, three borsh strings. -/
theorem decode_ok_of_discriminator_match_witness :
    (createIns.decode rawGood).1 =
      Except.ok ⟨[("mint", some "A0"), ("user", some "A7")],
        ([70, 111, 111], [70, 79, 79],
         [104, 116, 116, 112, 115, 58, 47, 47, 120])⟩ := by
  have h := decode_ok_of_discriminator_match createIns 8 "0x181ec828051c0777"
    [24, 30, 200, 40, 5, 28, 7, 119] rawGood
    ([70, 111, 111], [70, 79, 79], [104, 116, 116, 112, 115, 58, 47, 47, 120]) []
    (Or.inl ⟨rfl, rfl⟩) rfl rfl rfl (by decide) rfl rfl (by decide)
  exact h.1

/-- Claim C5: for a declared 1-, 4-, or 8-byte hex discriminator and a
payload at least that wide, validation succeeds exactly when the payload's
leading width bytes equal, byte for byte, the bytes written in the hex
constant: the same fixed-width unsigned read applied to both sides of the
comparison introduces no endianness flip. -/
theorem discriminator_check_iff_bytes_eq {D : Type} (ins : Instruction D)
    (w : Nat) (hex : String) (db payload : Bytes)
    (hspec : discSpec ins w hex) (hdh : decodeHex hex = some db)
    (hlen : db.length = w) (hp : w ≤ payload.length)
    (hpb : ∀ b ∈ payload, b < 256) (hcache : ins.cachedAssert = none) :
    (ins.assertDiscriminator payload).1 = Except.ok (payload.drop w) ↔
      payload.take w = db := by
  have hcompile := compileCheck_of_discSpec hspec hdh hlen
  rw [assertDiscriminator_fresh_ok hcache hcompile]
  by_cases hc : payload.take w = db
  · simp [applyCheck_tagged hlen hp (decodeHex_lt hdh) hpb, hc]
  · simp [applyCheck_tagged hlen hp (decodeHex_lt hdh) hpb, hc]

/-- Claim C5 witness: the golden payload's leading bytes match the
declared constant, so validation succeeds. -/
theorem discriminator_check_iff_bytes_eq_witness :
    (createIns.assertDiscriminator createPayload).1 =
      Except.ok (createPayload.drop 8) :=
  (discriminator_check_iff_bytes_eq createIns 8 "0x181ec828051c0777"
    [24, 30, 200, 40, 5, 28, 7, 119] createPayload
    (Or.inl ⟨rfl, rfl⟩) rfl rfl (by decide) (by decide) rfl).mpr rfl

/-- Claim C3: on a payload whose leading discriminator-width bytes differ
from the declared constant, `decode` fails with the discriminator-mismatch
error, and it does so identically for every injected data codec — the
codec is never invoked. -/
theorem decode_mismatch_independent_of_codec {D : Type} (ins : Instruction D)
    (w : Nat) (hex : String) (db : Bytes) (raw : RawInstruction)
    (hspec : discSpec ins w hex) (hdh : decodeHex hex = some db)
    (hlen : db.length = w) (hp : w ≤ raw.data.length)
    (hpb : ∀ b ∈ raw.data, b < 256)
    (hmis : raw.data.take w ≠ db) (hcache : ins.cachedAssert = none) :
    ∀ codec : Codec D,
      (({ ins with data := codec }).decode raw).1 =
        Except.error DecodeError.assertionFailed := by
  intro codec
  have hspec' : discSpec { ins with data := codec } w hex := hspec
  have hcompile := compileCheck_of_discSpec hspec' hdh hlen
  have hcache' : ({ ins with data := codec } : Instruction D).cachedAssert = none := hcache
  rw [decode_fst, decodeData_fresh_ok hcache' hcompile]
  simp [runCheckData, applyCheck_tagged hlen hp (decodeHex_lt hdh) hpb, hmis,
    Except.map]

/-- Claim C3 witness: a payload whose tag differs in one byte is rejected
under the concrete triple-string codec. -/
theorem decode_mismatch_independent_of_codec_witness :
    (({ createIns with data := tripleStringCodec }).decode
      ⟨rawGood.accounts, mismatchPayloadA⟩).1 =
      Except.error DecodeError.assertionFailed :=
  decode_mismatch_independent_of_codec createIns 8 "0x181ec828051c0777"
    [24, 30, 200, 40, 5, 28, 7, 119] ⟨rawGood.accounts, mismatchPayloadA⟩
    (Or.inl ⟨rfl, rfl⟩) rfl rfl (by decide) (by decide) (by decide) rfl
    tripleStringCodec

/-- Claim C4 counterexample: two payloads with different observed tag
values, and a definition with a different expected constant, all produce
the identical bare error value — so the mismatch error cannot carry the
expected or the actual discriminator. -/
theorem mismatch_error_carries_no_values_cex :
    (createIns.decodeData mismatchPayloadA).1 =
      Except.error DecodeError.assertionFailed ∧
    (createIns.decodeData mismatchPayloadB).1 =
      Except.error DecodeError.assertionFailed ∧
    mismatchPayloadA.take 8 ≠ mismatchPayloadB.take 8 ∧
    (otherIns.decodeData mismatchPayloadA).1 =
      (createIns.decodeData mismatchPayloadA).1 :=
  ⟨rfl, rfl, by decide, rfl⟩

/-- Claim C4 amended: a discriminator mismatch fails with the bare
assertion error, a constant value carrying neither the expected constant
nor the value read from the payload. -/
theorem mismatch_error_is_bare_assertion {D : Type} (ins : Instruction D)
    (w : Nat) (hex : String) (db payload : Bytes)
    (hspec : discSpec ins w hex) (hdh : decodeHex hex = some db)
    (hlen : db.length = w) (hp : w ≤ payload.length)
    (hpb : ∀ b ∈ payload, b < 256) (hmis : payload.take w ≠ db)
    (hcache : ins.cachedAssert = none) :
    (ins.decodeData payload).1 = Except.error DecodeError.assertionFailed := by
  have hcompile := compileCheck_of_discSpec hspec hdh hlen
  rw [decodeData_fresh_ok hcache hcompile]
  simp [runCheckData, applyCheck_tagged hlen hp (decodeHex_lt hdh) hpb, hmis]

/-- Claim C4 amended witness: the one-byte-off payload of the golden
scenario yields the bare assertion error. -/
theorem mismatch_error_is_bare_assertion_witness :
    (createIns.decodeData mismatchPayloadB).1 =
      Except.error DecodeError.assertionFailed :=
  mismatch_error_is_bare_assertion createIns 8 "0x181ec828051c0777"
    [24, 30, 200, 40, 5, 28, 7, 119] mismatchPayloadB
    (Or.inl ⟨rfl, rfl⟩) rfl rfl (by decide) (by decide) (by decide) rfl

/-- Claim C6: with none of the three discriminator fields declared,
validation succeeds on any payload consuming zero bytes, and the data
codec decodes starting at byte offset 0 of the payload. -/
theorem no_discriminator_accepts_all {D : Type} (ins : Instruction D)
    (bytes : Bytes) (h8 : ins.d8 = none) (h4 : ins.d4 = none)
    (h1 : ins.d1 = none) (hcache : ins.cachedAssert = none) :
    (ins.assertDiscriminator bytes).1 = Except.ok bytes ∧
    (ins.decodeData bytes).1 = (ins.data bytes).map Prod.fst := by
  have hcompile : compileCheck ins.d8 ins.d4 ins.d1 =
      Except.ok CompiledCheck.always := by
    rw [h8, h4, h1]
    rfl
  constructor
  · rw [assertDiscriminator_fresh_ok hcache hcompile]
    rfl
  · rw [decodeData_fresh_ok hcache hcompile]
    simp only [runCheckData, applyCheck]
    cases h : ins.data bytes with
    | error e => simp [Except.map]
    | ok p => cases p; simp [Except.map]

/-- Claim C6 witness: the undiscriminated definition accepts the bare
body and decodes it from offset 0. -/
theorem no_discriminator_accepts_all_witness :
    (noDiscIns.assertDiscriminator createBody).1 = Except.ok createBody ∧
    (noDiscIns.decodeData createBody).1 =
      (noDiscIns.data createBody).map Prod.fst :=
  no_discriminator_accepts_all noDiscIns createBody rfl rfl rfl rfl

/-- Claim C2 counterexample: with the slot map `{mint: 0, user: 7}` and
only five supplied accounts, `decode` does not fail at all — it succeeds,
binding `user` to the absent value. -/
theorem decode_succeeds_on_short_accounts_cex :
    (createIns.decode rawShort).1 =
      Except.ok ⟨[("mint", some "A0"), ("user", none)],
        ([70, 111, 111], [70, 79, 79],
         [104, 116, 116, 112, 115, 58, 47, 47, 120])⟩ := rfl

/-- Claim C2 amended: a slot-map index at or beyond the account-list
length does not make `decode` fail; the role is bound to an absent
(`undefined`) value, and the success or failure of `decode` is determined
by the data path alone. -/
theorem decode_out_of_range_binds_absent {D : Type} (ins : Instruction D)
    (raw : RawInstruction) (role : String) (idx : Nat)
    (hmem : (role, idx) ∈ ins.accounts) (hout : raw.accounts.length ≤ idx) :
    (role, (none : Option String)) ∈ ins.decodeAccounts raw.accounts ∧
    (ins.decode raw).1 =
      ((ins.decodeData raw.data).1).map
        (fun v => DecodedInstruction.mk (ins.decodeAccounts raw.accounts) v) := by
  refine ⟨?_, decode_fst ins raw⟩
  rw [Instruction.decodeAccounts, decodeAccountsList_eq_map]
  exact List.mem_map.mpr ⟨(role, idx), hmem, by simp [hout]⟩

/-- Claim C2 amended witness: five accounts, role `user` at index 7. -/
theorem decode_out_of_range_binds_absent_witness :
    ("user", (none : Option String)) ∈ createIns.decodeAccounts rawShort.accounts ∧
    (createIns.decode rawShort).1 =
      ((createIns.decodeData rawShort.data).1).map
        (fun v => DecodedInstruction.mk
          (createIns.decodeAccounts rawShort.accounts) v) :=
  decode_out_of_range_binds_absent createIns rawShort "user" 7
    (by decide) (by decide)

/-- Claim C7: the hex constant is parsed and the check compiled at most
once per instance — the first decode call populates the memo field; once
set it never changes, and later decodes never consult the declared hex
fields again (the result is invariant under replacing them). -/
theorem discriminator_cache_compiled_once {D : Type} (ins : Instruction D)
    (raw : RawInstruction) :
    (∀ c, ins.cachedAssert = some c →
      (ins.decode raw).2.cachedAssert = some c ∧
      ∀ x y z, (({ ins with d8 := x, d4 := y, d1 := z }).decode raw).1 =
        (ins.decode raw).1) ∧
    (∀ c, ins.cachedAssert = none →
      compileCheck ins.d8 ins.d4 ins.d1 = Except.ok c →
      (ins.decode raw).2.cachedAssert = some c) := by
  constructor
  · intro c hc
    constructor
    · rw [decode_snd, decodeData_cached hc]
      exact hc
    · intro x y z
      have hq : ({ ins with d8 := x, d4 := y, d1 := z } : Instruction D).cachedAssert = some c := hc
      rw [decode_fst, decode_fst, decodeData_cached hc, decodeData_cached hq]
      rfl
  · intro c hc hcompile
    rw [decode_snd, decodeData_fresh_ok hc hcompile]

/-- Claim C7 witness: the first decode of the golden scenario stores the
check compiled from `0x181ec828051c0777` in the memo field. -/
theorem discriminator_cache_compiled_once_witness :
    (createIns.decode rawGood).2.cachedAssert =
      some (CompiledCheck.tagged 8 0x77071c0528c81e18) :=
  (discriminator_cache_compiled_once createIns rawGood).2
    (CompiledCheck.tagged 8 0x77071c0528c81e18) rfl rfl

/-- Claim C8: two successive `decode` calls on the same instance with the
same raw instruction return identical results, whatever the initial
contents of the lazy check cache. -/
theorem decode_idempotent {D : Type} (ins : Instruction D)
    (raw : RawInstruction) :
    (((ins.decode raw).2).decode raw).1 = (ins.decode raw).1 := by
  cases hc : ins.cachedAssert with
  | some c =>
    have h2 := decode_snd ins raw
    rw [decodeData_cached hc] at h2
    rw [h2]
  | none =>
    cases hcompile : compileCheck ins.d8 ins.d4 ins.d1 with
    | error e =>
      have h2 := decode_snd ins raw
      rw [decodeData_fresh_err hc hcompile] at h2
      rw [h2]
    | ok c =>
      have h2 := decode_snd ins raw
      rw [decodeData_fresh_ok hc hcompile] at h2
      have hq : ({ ins with cachedAssert := some c } : Instruction D).cachedAssert = some c := rfl
      rw [h2, decode_fst, decode_fst, decodeData_cached hq,
        decodeData_fresh_ok hc hcompile]
      rfl

/-- Claim C9: account resolution is total — the result lists exactly the
slot map's role names in declaration order, binds every in-range role to
the address at its index, and binds every out-of-range role to the absent
value; no error is possible. -/
theorem decodeAccounts_total_characterization {D : Type} (ins : Instruction D)
    (addrs : List String) :
    (ins.decodeAccounts addrs).map Prod.fst = ins.accounts.map Prod.fst ∧
    (∀ role idx, (role, idx) ∈ ins.accounts →
      (role, addrs.get? idx) ∈ ins.decodeAccounts addrs) ∧
    (∀ role idx, (role, idx) ∈ ins.accounts → addrs.length ≤ idx →
      (role, (none : Option String)) ∈ ins.decodeAccounts addrs) := by
  simp only [Instruction.decodeAccounts, decodeAccountsList_eq_map]
  refine ⟨?_, ?_, ?_⟩
  · rw [List.map_map]
    rfl
  · intro role idx hmem
    exact List.mem_map.mpr ⟨(role, idx), hmem, rfl⟩
  · intro role idx hmem hout
    exact List.mem_map.mpr ⟨(role, idx), hmem, by simp [hout]⟩

/-- Claim C9 witness: on five addresses the golden slot map resolves to
`mint ↦ A0` and `user ↦` absent, keys in declaration order. -/
theorem decodeAccounts_total_characterization_witness :
    ("user", (none : Option String)) ∈
      createIns.decodeAccounts ["A0", "A1", "A2", "A3", "A4"] :=
  (decodeAccounts_total_characterization createIns
    ["A0", "A1", "A2", "A3", "A4"]).2.2 "user" 7 (by decide) (by decide)

/-- Claim C10: when several discriminator width fields are declared, the
widest wins — `d8` over `d4`, `d4` over `d1` — and the narrower declared
constants are silently ignored by validation. -/
theorem discriminator_width_precedence {D : Type} (ins : Instruction D)
    (raw : RawInstruction) :
    (∀ h x y, ins.d8 = some h →
      compileCheck (some h) x y = compileCheck (some h) none none ∧
      (({ ins with d4 := x, d1 := y }).decode raw).1 = (ins.decode raw).1) ∧
    (∀ h y, ins.d8 = none → ins.d4 = some h →
      (({ ins with d1 := y }).decode raw).1 = (ins.decode raw).1) := by
  constructor
  · intro h x y h8
    refine ⟨rfl, ?_⟩
    cases hc : ins.cachedAssert with
    | some c =>
      have hq : ({ ins with d4 := x, d1 := y, cachedAssert := some c } : Instruction D).cachedAssert = some c := rfl
      have hrw := decodeData_cached hq
      rw [decode_fst, decode_fst, hrw, decodeData_cached hc]
      rfl
    | none =>
      have hcomp : compileCheck ins.d8 x y = compileCheck ins.d8 ins.d4 ins.d1 := by
        rw [h8]
        rfl
      cases hcompile : compileCheck ins.d8 ins.d4 ins.d1 with
      | error e =>
        have hq : ({ ins with d4 := x, d1 := y, cachedAssert := none } : Instruction D).cachedAssert = none := rfl
        have hrw := decodeData_fresh_err hq (hcomp.trans hcompile)
        rw [decode_fst, decode_fst, hrw, decodeData_fresh_err hc hcompile]
        rfl
      | ok c =>
        have hq : ({ ins with d4 := x, d1 := y, cachedAssert := none } : Instruction D).cachedAssert = none := rfl
        have hrw := decodeData_fresh_ok hq (hcomp.trans hcompile)
        rw [decode_fst, decode_fst, hrw, decodeData_fresh_ok hc hcompile]
        rfl
  · intro h y h8 h4
    cases hc : ins.cachedAssert with
    | some c =>
      have hq : ({ ins with d1 := y, cachedAssert := some c } : Instruction D).cachedAssert = some c := rfl
      have hrw := decodeData_cached hq
      rw [decode_fst, decode_fst, hrw, decodeData_cached hc]
      rfl
    | none =>
      have hcomp : compileCheck ins.d8 ins.d4 y = compileCheck ins.d8 ins.d4 ins.d1 := by
        rw [h8, h4]
        rfl
      cases hcompile : compileCheck ins.d8 ins.d4 ins.d1 with
      | error e =>
        have hq : ({ ins with d1 := y, cachedAssert := none } : Instruction D).cachedAssert = none := rfl
        have hrw := decodeData_fresh_err hq (hcomp.trans hcompile)
        rw [decode_fst, decode_fst, hrw, decodeData_fresh_err hc hcompile]
        rfl
      | ok c =>
        have hq : ({ ins with d1 := y, cachedAssert := none } : Instruction D).cachedAssert = none := rfl
        have hrw := decodeData_fresh_ok hq (hcomp.trans hcompile)
        rw [decode_fst, decode_fst, hrw, decodeData_fresh_ok hc hcompile]
        rfl

/-- Claim C10 witness: adding narrower `d4`/`d1` constants to the golden
definition leaves the decode result unchanged. -/
theorem discriminator_width_precedence_witness :
    (({ createIns with d4 := some "deadbeef", d1 := some "ff" }).decode
        rawGood).1 = (createIns.decode rawGood).1 :=
  ((discriminator_width_precedence createIns rawGood).1
    "0x181ec828051c0777" (some "deadbeef") (some "ff") rfl).2
